import Mathlib

/-!
Verification development for the webpki DER decoder core (src/der.rs).

The byte-cursor collaborator (the untrusted crate's Reader/Input) is modelled
as the list of bytes not yet consumed: a decoder takes the remaining bytes and
returns either an error or a value together with the bytes left after it.
Bytes are natural numbers (each byte of a real input is below 256; theorems
add that bound as a hypothesis where the arithmetic depends on it).
-/

namespace Webpki

/-- The two error kinds of the decoder core (webpki's Error values used by
src/der.rs): the generic structural kind and the time-specific kind. -/
inductive Error where
  | BadDER
  | BadDERTime
deriving DecidableEq, Repr

/-- A byte buffer / buffer view: the bytes not yet consumed by the cursor. -/
abbrev Bytes := List Nat

/-- Modelled from the spec: the cursor's peek-next-tag-byte test, true when
the next unconsumed byte equals `b` (false at end of input). -/
def peek (b : Nat) (input : Bytes) : Bool :=
  match input with
  | [] => false
  | x :: _ => x == b

/-- Modelled from the spec: the cursor primitive that yields a value-view of
exactly `n` following bytes, failing when the buffer has fewer bytes than
declared. -/
def takeValue (n : Nat) (bs : Bytes) : Except Error (Bytes × Bytes) :=
  if n ≤ bs.length then .ok (bs.take n, bs.drop n) else .error .BadDER

/-- Modelled from the spec: tag/length framing (the ring der routine webpki
re-exports): consume one tag octet (low tag number form only), then a DER
length in canonical short form (below 0x80) or long form (0x81 with one
length byte of at least 0x80, or 0x82 with two length bytes encoding at
least 0x100), and return the observed tag with a value-view of exactly that
many following bytes; anything else, including a buffer with fewer bytes
than declared, is an error. -/
def read_tag_and_get_value (input : Bytes) : Except Error (Nat × Bytes × Bytes) :=
  match input with
  | [] => .error .BadDER
  | t :: r1 =>
    if t % 32 = 31 then .error .BadDER
    else
      match r1 with
      | [] => .error .BadDER
      | l :: r2 =>
        if l < 128 then
          match takeValue l r2 with
          | .ok (v, rest) => .ok (t, v, rest)
          | .error e => .error e
        else if l = 129 then
          match r2 with
          | [] => .error .BadDER
          | l2 :: r3 =>
            if l2 < 128 then .error .BadDER
            else
              match takeValue l2 r3 with
              | .ok (v, rest) => .ok (t, v, rest)
              | .error e => .error e
        else if l = 130 then
          match r2 with
          | l2 :: l3 :: r4 =>
            if l2 * 256 + l3 < 256 then .error .BadDER
            else
              match takeValue (l2 * 256 + l3) r4 with
              | .ok (v, rest) => .ok (t, v, rest)
              | .error e => .error e
          | _ => .error .BadDER
        else .error .BadDER

/-- webpki's expect_tag_and_get_value: frame one TLV and require the observed
tag to equal `tag`, mapping every failure to BadDER. -/
def expect_tag_and_get_value (tag : Nat) (input : Bytes) :
    Except Error (Bytes × Bytes) :=
  match read_tag_and_get_value input with
  | .ok (t, v, rest) => if t = tag then .ok (v, rest) else .error .BadDER
  | .error e => .error e

/-- Modelled from the spec: the cursor's read-all discipline: run the decoder
over a fresh cursor on the value-view; its own error propagates unchanged,
and any unconsumed trailing byte yields the caller-supplied error. -/
def read_all {R : Type} (v : Bytes) (err : Error)
    (d : Bytes → Except Error (R × Bytes)) : Except Error R :=
  match d v with
  | .ok (r, rest) => if rest.isEmpty then .ok r else .error err
  | .error e => .error e

/-- The nested combinator re-exported from ring: frame `tag`, mapping a
framing failure to the caller-supplied error, then decode the value-view
under the read-all discipline. -/
def nested {R : Type} (input : Bytes) (tag : Nat) (err : Error)
    (d : Bytes → Except Error (R × Bytes)) : Except Error (R × Bytes) :=
  match expect_tag_and_get_value tag input with
  | .ok (v, rest) =>
    match read_all v err d with
    | .ok r => .ok (r, rest)
    | .error e => .error e
  | .error _ => .error err

/-- optional_boolean from src/der.rs: absent Boolean tag means false without
consuming; a framed Boolean must have payload byte 0xFF (true) or 0x00
(false), anything else is BadDER. -/
def optional_boolean (input : Bytes) : Except Error (Bool × Bytes) :=
  if !peek 1 input then .ok (false, input)
  else
    nested input 1 .BadDER (fun v =>
      match v with
      | [] => .error .BadDER
      | b :: r =>
        if b = 255 then .ok (true, r)
        else if b = 0 then .ok (false, r)
        else .error .BadDER)

/-- read_digit inside time_choice: one byte, which must be an ASCII decimal
digit, yielding its value; anything else (including end of input) is
BadDERTime. -/
def read_digit (input : Bytes) : Except Error (Nat × Bytes) :=
  match input with
  | [] => .error .BadDERTime
  | b :: rest =>
    if b < 48 ∨ 57 < b then .error .BadDERTime else .ok (b - 48, rest)

/-- read_two_digits inside time_choice: two digits forming a value that must
lie in `mn..mx`, otherwise BadDERTime. -/
def read_two_digits (input : Bytes) (mn mx : Nat) : Except Error (Nat × Bytes) :=
  match read_digit input with
  | .error e => .error e
  | .ok (hi, r1) =>
    match read_digit r1 with
    | .error e => .error e
    | .ok (lo, r2) =>
      if hi * 10 + lo < mn ∨ mx < hi * 10 + lo then .error .BadDERTime
      else .ok (hi * 10 + lo, r2)

/-- Modelled from the spec: the calendar collaborator's days_in_month, a pure
leap-year-aware day count (February has 29 days exactly in leap years,
rejecting e.g. day 30 for February via the caller's range check). -/
def days_in_month (year month : Nat) : Nat :=
  if month = 2 then
    if year % 4 = 0 ∧ (year % 100 ≠ 0 ∨ year % 400 = 0) then 29 else 28
  else if month = 4 ∨ month = 6 ∨ month = 9 ∨ month = 11 then 30
  else 31

/-- Modelled from the spec: the normalized absolute-time value produced by the
calendar collaborator, determined by the validated six-tuple. -/
structure Time where
  year : Nat
  month : Nat
  day : Nat
  hour : Nat
  minute : Nat
  second : Nat
deriving DecidableEq, Repr

/-- Modelled from the spec: the calendar collaborator's time_from_ymdhms_utc,
which converts a (year, month, day, hour, minute, second) tuple to the
normalized time value and rejects calendar-invalid combinations with the
time-specific error kind. -/
def time_from_ymdhms_utc (y mo d h mi s : Nat) : Except Error Time :=
  if 1 ≤ mo ∧ mo ≤ 12 ∧ 1 ≤ d ∧ d ≤ days_in_month y mo ∧
      h ≤ 23 ∧ mi ≤ 59 ∧ s ≤ 59 then
    .ok ⟨y, mo, d, h, mi, s⟩
  else .error .BadDERTime

/-- The part of time_choice's nested closure from src/der.rs that follows the
year digits: month, day bounded by days_in_month, hour, minute, second, then
the literal byte Z (0x5A), finally delegating to the calendar
collaborator. -/
def time_inner_tail (year : Nat) (r1 : Bytes) : Except Error (Time × Bytes) :=
  match read_two_digits r1 1 12 with
  | .error e => .error e
  | .ok (month, r2) =>
    match read_two_digits r2 1 (days_in_month year month) with
    | .error e => .error e
    | .ok (day_of_month, r3) =>
      match read_two_digits r3 0 23 with
      | .error e => .error e
      | .ok (hours, r4) =>
        match read_two_digits r4 0 59 with
        | .error e => .error e
        | .ok (minutes, r5) =>
          match read_two_digits r5 0 59 with
          | .error e => .error e
          | .ok (seconds, r6) =>
            match r6 with
            | [] => .error .BadDERTime
            | time_zone :: r7 =>
              if time_zone ≠ 90 then .error .BadDERTime
              else
                match time_from_ymdhms_utc year month day_of_month hours
                    minutes seconds with
                | .error e => .error e
                | .ok t => .ok (t, r7)

/-- The body of time_choice's nested closure from src/der.rs: year digits
(with the UTCTime century rule inlined exactly as in the source), then the
common tail. -/
def time_inner (is_utc_time : Bool) (value : Bytes) : Except Error (Time × Bytes) :=
  match is_utc_time with
  | true =>
    match read_two_digits value 0 99 with
    | .error e => .error e
    | .ok (lo, r) => time_inner_tail ((if 50 ≤ lo then 19 else 20) * 100 + lo) r
  | false =>
    match read_two_digits value 0 99 with
    | .error e => .error e
    | .ok (hi, ra) =>
      match read_two_digits ra 0 99 with
      | .error e => .error e
      | .ok (lo, rb) => time_inner_tail (hi * 100 + lo) rb

/-- time_choice from src/der.rs: peek for the UTCTime tag (0x17) to choose
the expected tag (0x18, GeneralizedTime, otherwise), then decode the framed
value with the nested combinator, whose framing error is BadDER. -/
def time_choice (input : Bytes) : Except Error (Time × Bytes) :=
  let is_utc_time := peek 23 input
  let expected_tag := if is_utc_time then 23 else 24
  nested input expected_tag .BadDER (time_inner is_utc_time)

/-- The u64 modulus: Rust's release-mode arithmetic wraps modulo 2^64. -/
def W64 : Nat := 2 ^ 64

/-- The inner while-loop of parse_oid that drains the continuation-byte stack
once a terminating byte is read: iteration starts at 0 and is incremented
before each use, and every u64 operation (the power, the product, the sum)
wraps modulo 2^64 as in a release build. -/
def accumStack (subtotal : Nat) (iter : Nat) : List Nat → Nat
  | [] => subtotal
  | c :: st =>
    accumStack ((subtotal + (c - 128) * (128 ^ (iter + 1) % W64) % W64) % W64)
      (iter + 1) st

/-- The outer while-loop of parse_oid from src/der.rs: bytes with the high
bit set are pushed onto the front of the stack; a byte below 128 appends a
dot and the drained accumulation to the string; when the data ends the
string is returned as is, even if undrained continuation bytes remain on the
stack. -/
def oid_loop (stack : List Nat) (acc : String) : Bytes → String
  | [] => acc
  | b :: rest =>
    if 128 ≤ b then oid_loop (b :: stack) acc rest
    else oid_loop [] (acc ++ "." ++ toString (accumStack b 0 stack)) rest

/-- parse_oid from src/der.rs: frame an OID-tagged value, read the first
payload byte into the two leading arcs `first/40` and `first%40`, then run
the continuation-byte loop over the remaining payload under the read-all
discipline (the loop always consumes the whole payload). -/
def parse_oid (input : Bytes) : Except Error (String × Bytes) :=
  match expect_tag_and_get_value 6 input with
  | .error e => .error e
  | .ok (oid, rest) =>
    match read_all oid .BadDER (fun data =>
        match data with
        | [] => .error .BadDER
        | first :: ds =>
          .ok (oid_loop [] (toString (first / 40) ++ "." ++ toString (first % 40)) ds,
               ([] : Bytes))) with
    | .ok s => .ok (s, rest)
    | .error e => .error e

/-- The stack-draining loop under debug-build semantics, where every u64
operation is overflow-checked: none models an arithmetic-overflow panic.
For base 128 the Rust pow intrinsic overflows during its computation exactly
when the mathematical power reaches 2^64. -/
def accumStackChecked (subtotal : Nat) (iter : Nat) : List Nat → Option Nat
  | [] => some subtotal
  | c :: st =>
    if 128 ^ (iter + 1) < W64 then
      if (c - 128) * 128 ^ (iter + 1) < W64 then
        if subtotal + (c - 128) * 128 ^ (iter + 1) < W64 then
          accumStackChecked (subtotal + (c - 128) * 128 ^ (iter + 1)) (iter + 1) st
        else none
      else none
    else none

/-- The outer parse_oid loop under debug-build overflow-checked semantics. -/
def oid_loop_checked (stack : List Nat) (acc : String) : Bytes → Option String
  | [] => some acc
  | b :: rest =>
    if 128 ≤ b then oid_loop_checked (b :: stack) acc rest
    else
      match accumStackChecked b 0 stack with
      | some subtotal => oid_loop_checked [] (acc ++ "." ++ toString subtotal) rest
      | none => none

/-- parse_oid under debug-build overflow-checked semantics: none models a
panic in the accumulation arithmetic; the surrounding framing and read-all
plumbing cannot overflow and is as in parse_oid (the loop consumes the whole
payload, so the read-all check always passes). -/
def parse_oidChecked (input : Bytes) : Option (Except Error (String × Bytes)) :=
  match expect_tag_and_get_value 6 input with
  | .error e => some (.error e)
  | .ok (oid, rest) =>
    match oid with
    | [] => some (.error .BadDER)
    | first :: ds =>
      match oid_loop_checked []
          (toString (first / 40) ++ "." ++ toString (first % 40)) ds with
      | some s => some (.ok (s, rest))
      | none => none

/-- Modelled from the spec: a UTF-8 continuation byte (0x80..0xBF). -/
def isCont (b : Nat) : Bool :=
  decide (128 ≤ b) && decide (b ≤ 191)

/-- Modelled from the spec: UTF-8 validation and decoding as performed by the
standard library's String::from_utf8 collaborator: the usual 1- to 4-byte
forms, rejecting overlong encodings, surrogates and code points past
0x10FFFF; none models invalid UTF-8. -/
def utf8Chars : Bytes → Option (List Char)
  | [] => some []
  | b :: rest =>
    if b ≤ 127 then (utf8Chars rest).map (fun cs => Char.ofNat b :: cs)
    else if 194 ≤ b ∧ b ≤ 223 then
      match rest with
      | b2 :: r2 =>
        if isCont b2 then
          (utf8Chars r2).map (fun cs => Char.ofNat ((b - 192) * 64 + (b2 - 128)) :: cs)
        else none
      | [] => none
    else if 224 ≤ b ∧ b ≤ 239 then
      match rest with
      | b2 :: b3 :: r3 =>
        if (if b = 224 then decide (160 ≤ b2) && decide (b2 ≤ 191)
            else if b = 237 then decide (128 ≤ b2) && decide (b2 ≤ 159)
            else isCont b2) && isCont b3 then
          (utf8Chars r3).map (fun cs =>
            Char.ofNat ((b - 224) * 4096 + (b2 - 128) * 64 + (b3 - 128)) :: cs)
        else none
      | _ => none
    else if 240 ≤ b ∧ b ≤ 244 then
      match rest with
      | b2 :: b3 :: b4 :: r4 =>
        if (if b = 240 then decide (144 ≤ b2) && decide (b2 ≤ 191)
            else if b = 244 then decide (128 ≤ b2) && decide (b2 ≤ 143)
            else isCont b2) && isCont b3 && isCont b4 then
          (utf8Chars r4).map (fun cs =>
            Char.ofNat ((b - 240) * 262144 + (b2 - 128) * 4096 +
              (b3 - 128) * 64 + (b4 - 128)) :: cs)
        else none
      | _ => none
    else none

/-- Modelled from the spec: String::from_utf8 on a byte buffer. -/
def utf8Decode (bs : Bytes) : Option String :=
  (utf8Chars bs).map (fun cs => String.mk cs)

/-- parse_directory_string from src/der.rs: read one TLV of any tag (the tag
is not checked) and require the value bytes to be valid UTF-8. -/
def parse_directory_string (input : Bytes) : Except Error (String × Bytes) :=
  match read_tag_and_get_value input with
  | .error _ => .error .BadDER
  | .ok (_, v, rest) =>
    match utf8Decode v with
    | some s => .ok (s, rest)
    | none => .error .BadDER

/-- The Name structure from src/der.rs: six optional canonical attributes
plus the single extra slot. -/
structure Name where
  common_name : Option String
  country_name : Option String
  locality_name : Option String
  state_or_province_name : Option String
  organization_name : Option String
  organizational_unit_name : Option String
  extra : Option String
deriving DecidableEq, Repr

/-- The all-absent Name that parse_name starts from. -/
def emptyName : Name := ⟨none, none, none, none, none, none, none⟩

/-- The match over the decoded attribute-type OID string inside parse_name's
loop: six recognized OIDs each set their field; any other OID overwrites the
extra slot with the OID string itself. -/
def updateName (acc : Name) (id nm : String) : Name :=
  if id = "2.5.4.3" then { acc with common_name := some nm }
  else if id = "2.5.4.6" then { acc with country_name := some nm }
  else if id = "2.5.4.7" then { acc with locality_name := some nm }
  else if id = "2.5.4.8" then { acc with state_or_province_name := some nm }
  else if id = "2.5.4.10" then { acc with organization_name := some nm }
  else if id = "2.5.4.11" then { acc with organizational_unit_name := some nm }
  else { acc with extra := some id }

/-- parse_one_name from src/der.rs: require the next byte to be the Set tag
(0x31), frame the Set, frame a Sequence over the Set's value (any bytes of
the Set's value after the Sequence are left unread), and decode exactly one
OID and one directory string from the Sequence under the read-all
discipline. -/
def parse_one_name (input : Bytes) : Except Error ((String × String) × Bytes) :=
  if peek 49 input then
    match read_tag_and_get_value input with
    | .error _ => .error .BadDER
    | .ok (_, set_inner, rest) =>
      match expect_tag_and_get_value 48 set_inner with
      | .error e => .error e
      | .ok (seq, _) =>
        match read_all seq .BadDER (fun reader =>
            match parse_oid reader with
            | .error e => .error e
            | .ok (oid, ra) =>
              match parse_directory_string ra with
              | .error e => .error e
              | .ok (nm, rb) => .ok ((oid, nm), rb)) with
        | .ok p => .ok (p, rest)
        | .error e => .error e
  else .error .BadDER

/-- The RDN while-loop of parse_name, with fuel bounding the number of
iterations: each successful parse_one_name consumes at least two bytes, so a
fuel of one more than the input length never runs out (a congruence theorem
below makes that precise). -/
def parse_name_fuel (fuel : Nat) (acc : Name) (input : Bytes) : Name :=
  match fuel with
  | 0 => acc
  | f + 1 =>
    match parse_one_name input with
    | .ok ((id, nm), rest) => parse_name_fuel f (updateName acc id nm) rest
    | .error _ => acc

/-- parse_name from src/der.rs: run the RDN loop from the all-absent Name and
always return Ok of the accumulated Name. -/
def parse_name (input : Bytes) : Except Error Name :=
  .ok (parse_name_fuel (input.length + 1) emptyName input)

/-- The while-loop of parse_alt_name, with fuel bounding the number of
iterations: read one TLV of any tag; a framing failure ends the loop with
the names collected so far; a non-UTF-8 value aborts with BadDER. -/
def parse_alt_name_fuel (fuel : Nat) (acc : List String) (input : Bytes) :
    Except Error (List String) :=
  match fuel with
  | 0 => .ok acc
  | f + 1 =>
    match read_tag_and_get_value input with
    | .error _ => .ok acc
    | .ok (_, v, rest) =>
      match utf8Decode v with
      | some s => parse_alt_name_fuel f (acc ++ [s]) rest
      | none => .error .BadDER

/-- parse_alt_name from src/der.rs. -/
def parse_alt_name (input : Bytes) : Except Error (List String) :=
  parse_alt_name_fuel (input.length + 1) [] input

/-- The sequence of value buffers the parse_alt_name loop frames from the
input, in order, up to the first framing failure (fuel-bounded like the loop
itself). -/
def altValues_fuel (fuel : Nat) (input : Bytes) : List Bytes :=
  match fuel with
  | 0 => []
  | f + 1 =>
    match read_tag_and_get_value input with
    | .error _ => []
    | .ok (_, v, rest) => v :: altValues_fuel f rest

/-- The value buffers of the elements parse_alt_name walks over. -/
def altValues (input : Bytes) : List Bytes :=
  altValues_fuel (input.length + 1) input

/-- Claim-side reading of one digit slot: the byte must be an ASCII digit,
otherwise the time-specific error. -/
def specDigit (b : Nat) : Except Error Nat :=
  if 48 ≤ b ∧ b ≤ 57 then .ok (b - 48) else .error .BadDERTime

/-- Claim-side reading of one two-digit group with an inclusive range. -/
def specGroup (hi lo : Nat) (mn mx : Nat) : Except Error Nat :=
  match specDigit hi with
  | .error e => .error e
  | .ok h =>
    match specDigit lo with
    | .error e => .error e
    | .ok l =>
      if mn ≤ h * 10 + l ∧ h * 10 + l ≤ mx then .ok (h * 10 + l)
      else .error .BadDERTime

/-- Claim-side tail of the time grammar after the year: month in 1..12, day
in 1..days_in_month, hour in 0..23, minute in 0..59, second in 0..59, then
the literal byte Z, then the calendar collaborator on the validated
six-tuple. -/
def specTimeTail (year mo1 mo2 d1 d2 h1 h2 mi1 mi2 s1 s2 z : Nat) :
    Except Error Time :=
  match specGroup mo1 mo2 1 12 with
  | .error e => .error e
  | .ok month =>
    match specGroup d1 d2 1 (days_in_month year month) with
    | .error e => .error e
    | .ok day =>
      match specGroup h1 h2 0 23 with
      | .error e => .error e
      | .ok hour =>
        match specGroup mi1 mi2 0 59 with
        | .error e => .error e
        | .ok minute =>
          match specGroup s1 s2 0 59 with
          | .error e => .error e
          | .ok second =>
            if z = 90 then time_from_ymdhms_utc year month day hour minute second
            else .error .BadDERTime

/-- Claim C1's description of the framed time value, read left to right:
a 2-digit year with century inference for UTCTime (at least 50 maps to 19xx,
otherwise 20xx) or a 4-digit year for GeneralizedTime, then the common tail.
The frame payload is exactly 13 bytes (UTCTime) or 15 bytes
(GeneralizedTime); other shapes do not arise under the theorem's
hypothesis. -/
def timeSpec (isUtc : Bool) (p : Bytes) : Except Error Time :=
  match isUtc, p with
  | true, [y1, y2, mo1, mo2, d1, d2, h1, h2, mi1, mi2, s1, s2, z] =>
    (match specGroup y1 y2 0 99 with
     | .error e => .error e
     | .ok yy =>
       specTimeTail ((if 50 ≤ yy then 1900 else 2000) + yy)
         mo1 mo2 d1 d2 h1 h2 mi1 mi2 s1 s2 z)
  | false, [c1h, c2h, y1, y2, mo1, mo2, d1, d2, h1, h2, mi1, mi2, s1, s2, z] =>
    (match specGroup c1h c2h 0 99 with
     | .error e => .error e
     | .ok hi =>
       match specGroup y1 y2 0 99 with
       | .error e => .error e
       | .ok lo =>
         specTimeTail (hi * 100 + lo) mo1 mo2 d1 d2 h1 h2 mi1 mi2 s1 s2 z)
  | _, _ => .error .BadDERTime

/-- Claim-side shape of one base-128 varint in an OID payload: zero or more
continuation bytes (high bit set) followed by one terminating byte with the
high bit clear. -/
def IsVarintGroup (g : List Nat) : Prop :=
  ∃ cs t, g = cs ++ [t] ∧ (∀ c ∈ cs, 128 ≤ c ∧ c < 256) ∧ t < 128

/-- Claim-side value of a base-128 varint, most significant byte first. -/
def varintVal (g : List Nat) : Nat :=
  g.foldl (fun a b => a * 128 + b % 128) 0

/-- The mathematical value the continuation-byte stack contributes, front
byte least significant (weight 128 is applied by the caller). -/
def stackVal : List Nat → Nat
  | [] => 0
  | c :: st => (c - 128) + 128 * stackVal st

/-- The stack-draining accumulation with exact (unbounded) arithmetic. -/
def accumExact (subtotal : Nat) (iter : Nat) : List Nat → Nat
  | [] => subtotal
  | c :: st => accumExact (subtotal + (c - 128) * 128 ^ (iter + 1)) (iter + 1) st

/-- Claim-side dotted rendering: append one dot-separated arc per value to a
starting string, left to right. -/
def dottedFrom (s : String) (arcs : List Nat) : String :=
  arcs.foldl (fun a v => a ++ "." ++ toString v) s

/-- Claim-side dotted string of a whole OID: the two leading arcs from the
first payload byte, then one arc per varint. -/
def dottedOid (first : Nat) (arcs : List Nat) : String :=
  dottedFrom (toString (first / 40) ++ "." ++ toString (first % 40)) arcs

/-- The six attribute-type OID strings parse_name recognizes. -/
def recognizedOids : List String :=
  ["2.5.4.3", "2.5.4.6", "2.5.4.7", "2.5.4.8", "2.5.4.10", "2.5.4.11"]

/-- Concrete RDN bytes: SET of SEQUENCE(OID 2.5.4.3, UTF8String
"example.com"). -/
def rdnCommonName : Bytes :=
  [49, 20, 48, 18, 6, 3, 85, 4, 3,
   12, 11, 101, 120, 97, 109, 112, 108, 101, 46, 99, 111, 109]

/-- Concrete RDN bytes: SET of SEQUENCE(OID 2.5.4.9, UTF8String "a"), an
attribute type parse_name does not recognize. -/
def rdnUnrecognizedA : Bytes := [49, 10, 48, 8, 6, 3, 85, 4, 9, 12, 1, 97]

/-- Concrete RDN bytes: SET of SEQUENCE(OID 2.5.4.12, UTF8String "b"),
another attribute type parse_name does not recognize. -/
def rdnUnrecognizedB : Bytes := [49, 10, 48, 8, 6, 3, 85, 4, 12, 12, 1, 98]

/-- Three RDNs in sequence: a common name and two unrecognized attributes. -/
def nameRdnExample : Bytes := rdnCommonName ++ rdnUnrecognizedA ++ rdnUnrecognizedB

theorem takeValue_append (v rest : Bytes) :
    takeValue v.length (v ++ rest) = .ok (v, rest) := by
  simp [takeValue]

theorem read_tag_short (t : Nat) (v rest : Bytes) (ht : t % 32 ≠ 31)
    (hv : v.length < 128) :
    read_tag_and_get_value (t :: v.length :: (v ++ rest)) = .ok (t, v, rest) := by
  simp [read_tag_and_get_value, ht, hv, takeValue_append]

theorem expect_tag_short (t : Nat) (v rest : Bytes) (ht : t % 32 ≠ 31)
    (hv : v.length < 128) :
    expect_tag_and_get_value t (t :: v.length :: (v ++ rest)) = .ok (v, rest) := by
  simp [expect_tag_and_get_value, read_tag_short t v rest ht hv]

theorem nested_short {R : Type} (t : Nat) (v rest : Bytes) (err : Error)
    (d : Bytes → Except Error (R × Bytes)) (ht : t % 32 ≠ 31)
    (hv : v.length < 128) :
    nested (t :: v.length :: (v ++ rest)) t err d =
      match read_all v err d with
      | .ok r => .ok (r, rest)
      | .error e => .error e := by
  simp [nested, expect_tag_short t v rest ht hv]

theorem takeValue_rest_length {n : Nat} {bs v rest : Bytes}
    (h : takeValue n bs = .ok (v, rest)) : rest.length ≤ bs.length := by
  unfold takeValue at h
  split at h
  · simp only [Except.ok.injEq, Prod.mk.injEq] at h
    obtain ⟨-, h2⟩ := h
    subst h2
    simp
  · exact absurd h (by simp)

theorem read_tag_rest_length {input : Bytes} {t : Nat} {v rest : Bytes}
    (h : read_tag_and_get_value input = .ok (t, v, rest)) :
    rest.length + 2 ≤ input.length := by
  unfold read_tag_and_get_value at h
  split at h
  · exact absurd h (by simp)
  · rename_i t' r1
    split at h
    · exact absurd h (by simp)
    · split at h
      · exact absurd h (by simp)
      · rename_i l r2
        split at h
        · split at h
          · rename_i heq
            simp only [Except.ok.injEq, Prod.mk.injEq] at h
            obtain ⟨-, -, h3⟩ := h
            subst h3
            have := takeValue_rest_length heq
            simp only [List.length_cons]
            omega
          · exact absurd h (by simp)
        · split at h
          · split at h
            · exact absurd h (by simp)
            · rename_i l2 r3
              split at h
              · exact absurd h (by simp)
              · split at h
                · rename_i heq
                  simp only [Except.ok.injEq, Prod.mk.injEq] at h
                  obtain ⟨-, -, h3⟩ := h
                  subst h3
                  have := takeValue_rest_length heq
                  simp only [List.length_cons]
                  omega
                · exact absurd h (by simp)
          · split at h
            · split at h
              · rename_i l2 l3 r4
                split at h
                · exact absurd h (by simp)
                · split at h
                  · rename_i heq
                    simp only [Except.ok.injEq, Prod.mk.injEq] at h
                    obtain ⟨-, -, h3⟩ := h
                    subst h3
                    have := takeValue_rest_length heq
                    simp only [List.length_cons]
                    omega
                  · exact absurd h (by simp)
              · exact absurd h (by simp)
            · exact absurd h (by simp)

theorem read_tag_head {input : Bytes} {t : Nat} {v rest : Bytes}
    (h : read_tag_and_get_value input = .ok (t, v, rest)) :
    input.head? = some t := by
  unfold read_tag_and_get_value at h
  split at h
  · exact absurd h (by simp)
  · rename_i t' r1
    suffices ht : t' = t by simp [ht]
    split at h
    · exact absurd h (by simp)
    · split at h
      · exact absurd h (by simp)
      · split at h
        · split at h
          · simp only [Except.ok.injEq, Prod.mk.injEq] at h
            exact h.1
          · exact absurd h (by simp)
        · split at h
          · split at h
            · exact absurd h (by simp)
            · split at h
              · exact absurd h (by simp)
              · split at h
                · simp only [Except.ok.injEq, Prod.mk.injEq] at h
                  exact h.1
                · exact absurd h (by simp)
          · split at h
            · split at h
              · split at h
                · exact absurd h (by simp)
                · split at h
                  · simp only [Except.ok.injEq, Prod.mk.injEq] at h
                    exact h.1
                  · exact absurd h (by simp)
              · exact absurd h (by simp)
            · exact absurd h (by simp)

theorem expect_tag_head {tag : Nat} {input : Bytes} {v rest : Bytes}
    (h : expect_tag_and_get_value tag input = .ok (v, rest)) :
    input.head? = some tag := by
  unfold expect_tag_and_get_value at h
  split at h
  · rename_i t w r heq
    split at h
    · rename_i ht
      subst ht
      exact read_tag_head heq
    · exact absurd h (by simp)
  · exact absurd h (by simp)

theorem parse_one_name_rest_length {input : Bytes} {p : String × String}
    {rest : Bytes} (h : parse_one_name input = .ok (p, rest)) :
    rest.length + 2 ≤ input.length := by
  unfold parse_one_name at h
  split at h
  · split at h
    · exact absurd h (by simp)
    · rename_i t set_inner rest' heq
      split at h
      · exact absurd h (by simp)
      · split at h
        · simp only [Except.ok.injEq, Prod.mk.injEq] at h
          obtain ⟨-, h2⟩ := h
          subst h2
          exact read_tag_rest_length heq
        · exact absurd h (by simp)
  · exact absurd h (by simp)

theorem parse_name_fuel_congr :
    ∀ (f1 f2 : Nat) (acc : Name) (input : Bytes),
      input.length < f1 → input.length < f2 →
      parse_name_fuel f1 acc input = parse_name_fuel f2 acc input := by
  intro f1
  induction f1 with
  | zero => intro f2 acc input h1 h2; omega
  | succ f ih =>
    intro f2 acc input h1 h2
    cases f2 with
    | zero => omega
    | succ g =>
      simp only [parse_name_fuel]
      cases hp : parse_one_name input with
      | error e => rfl
      | ok pr =>
        obtain ⟨⟨id, nm⟩, rest⟩ := pr
        have hc := parse_one_name_rest_length hp
        exact ih g (updateName acc id nm) rest (by omega) (by omega)

theorem parse_alt_name_fuel_congr :
    ∀ (f1 f2 : Nat) (acc : List String) (input : Bytes),
      input.length < f1 → input.length < f2 →
      parse_alt_name_fuel f1 acc input = parse_alt_name_fuel f2 acc input := by
  intro f1
  induction f1 with
  | zero => intro f2 acc input h1 h2; omega
  | succ f ih =>
    intro f2 acc input h1 h2
    cases f2 with
    | zero => omega
    | succ g =>
      cases hr : read_tag_and_get_value input with
      | error e => simp only [parse_alt_name_fuel, hr]
      | ok tvr =>
        obtain ⟨t, v, rest⟩ := tvr
        have hc := read_tag_rest_length hr
        simp only [parse_alt_name_fuel, hr]
        cases utf8Decode v with
        | none => rfl
        | some s => exact ih g (acc ++ [s]) rest (by omega) (by omega)

theorem altValues_fuel_congr :
    ∀ (f1 f2 : Nat) (input : Bytes),
      input.length < f1 → input.length < f2 →
      altValues_fuel f1 input = altValues_fuel f2 input := by
  intro f1
  induction f1 with
  | zero => intro f2 input h1 h2; omega
  | succ f ih =>
    intro f2 input h1 h2
    cases f2 with
    | zero => omega
    | succ g =>
      cases hr : read_tag_and_get_value input with
      | error e => simp only [altValues_fuel, hr]
      | ok tvr =>
        obtain ⟨t, v, rest⟩ := tvr
        have hc := read_tag_rest_length hr
        simp only [altValues_fuel, hr]
        rw [ih g rest (by omega) (by omega)]

theorem read_two_digits_cons (a b mn mx : Nat) (r : Bytes) :
    read_two_digits (a :: b :: r) mn mx =
      match specGroup a b mn mx with
      | .ok v => .ok (v, r)
      | .error e => .error e := by
  by_cases hA : 48 ≤ a ∧ a ≤ 57
  · have hA' : ¬(a < 48 ∨ 57 < a) := by omega
    by_cases hB : 48 ≤ b ∧ b ≤ 57
    · have hB' : ¬(b < 48 ∨ 57 < b) := by omega
      by_cases hR : mn ≤ (a - 48) * 10 + (b - 48) ∧ (a - 48) * 10 + (b - 48) ≤ mx
      · have hR' : ¬((a - 48) * 10 + (b - 48) < mn ∨ mx < (a - 48) * 10 + (b - 48)) := by
          omega
        simp [read_two_digits, read_digit, specGroup, specDigit, hA, hA', hB, hB', hR, hR']
      · have hR' : (a - 48) * 10 + (b - 48) < mn ∨ mx < (a - 48) * 10 + (b - 48) := by
          omega
        simp [read_two_digits, read_digit, specGroup, specDigit, hA, hA', hB, hB', hR, hR']
    · have hB' : b < 48 ∨ 57 < b := by omega
      simp [read_two_digits, read_digit, specGroup, specDigit, hA, hA', hB, hB']
  · have hA' : a < 48 ∨ 57 < a := by omega
    simp [read_two_digits, read_digit, specGroup, specDigit, hA, hA']

theorem time_inner_tail_spec (year mo1 mo2 d1 d2 h1 h2 mi1 mi2 s1 s2 z : Nat) :
    time_inner_tail year [mo1, mo2, d1, d2, h1, h2, mi1, mi2, s1, s2, z] =
      match specTimeTail year mo1 mo2 d1 d2 h1 h2 mi1 mi2 s1 s2 z with
      | .ok t => .ok (t, ([] : Bytes))
      | .error e => .error e := by
  simp only [time_inner_tail, specTimeTail, read_two_digits_cons]
  cases specGroup mo1 mo2 1 12 with
  | error e => rfl
  | ok month =>
    simp only [read_two_digits_cons]
    cases specGroup d1 d2 1 (days_in_month year month) with
    | error e => rfl
    | ok day =>
      simp only [read_two_digits_cons]
      cases specGroup h1 h2 0 23 with
      | error e => rfl
      | ok hour =>
        simp only [read_two_digits_cons]
        cases specGroup mi1 mi2 0 59 with
        | error e => rfl
        | ok minute =>
          simp only [read_two_digits_cons]
          cases specGroup s1 s2 0 59 with
          | error e => rfl
          | ok second =>
            by_cases hz : z = 90
            · subst hz
              simp only [ne_eq, not_true_eq_false, if_false, if_pos rfl,
                reduceIte]
              cases time_from_ymdhms_utc year month day hour minute second with
              | error e => rfl
              | ok t => rfl
            · simp only [ne_eq, hz, not_false_eq_true, if_true, if_neg hz,
                reduceIte]

theorem read_all_time_utc (y1 y2 mo1 mo2 d1 d2 h1 h2 mi1 mi2 s1 s2 z : Nat) :
    read_all [y1, y2, mo1, mo2, d1, d2, h1, h2, mi1, mi2, s1, s2, z]
        Error.BadDER (time_inner true) =
      timeSpec true [y1, y2, mo1, mo2, d1, d2, h1, h2, mi1, mi2, s1, s2, z] := by
  simp only [read_all, time_inner, timeSpec, read_two_digits_cons]
  cases hy : specGroup y1 y2 0 99 with
  | error e => rfl
  | ok lo =>
    have hyear : (if 50 ≤ lo then 19 else 20) * 100 + lo =
        (if 50 ≤ lo then 1900 else 2000) + lo := by
      by_cases h5 : 50 ≤ lo
      · rw [if_pos h5, if_pos h5]
      · rw [if_neg h5, if_neg h5]
    simp only [hyear, time_inner_tail_spec]
    cases specTimeTail ((if 50 ≤ lo then 1900 else 2000) + lo)
        mo1 mo2 d1 d2 h1 h2 mi1 mi2 s1 s2 z with
    | error e => rfl
    | ok t => rfl

theorem read_all_time_gen (c1h c2h y1 y2 mo1 mo2 d1 d2 h1 h2 mi1 mi2 s1 s2 z : Nat) :
    read_all [c1h, c2h, y1, y2, mo1, mo2, d1, d2, h1, h2, mi1, mi2, s1, s2, z]
        Error.BadDER (time_inner false) =
      timeSpec false [c1h, c2h, y1, y2, mo1, mo2, d1, d2, h1, h2, mi1, mi2, s1, s2, z] := by
  simp only [read_all, time_inner, timeSpec, read_two_digits_cons]
  cases hy : specGroup c1h c2h 0 99 with
  | error e => rfl
  | ok hi =>
    simp only [read_two_digits_cons]
    cases specGroup y1 y2 0 99 with
    | error e => rfl
    | ok lo =>
      simp only [time_inner_tail_spec]
      cases specTimeTail (hi * 100 + lo) mo1 mo2 d1 d2 h1 h2 mi1 mi2 s1 s2 z with
      | error e => rfl
      | ok t => rfl

theorem oid_push (cs : List Nat) : ∀ (stack : List Nat) (acc : String) (ds : Bytes),
    (∀ c ∈ cs, 128 ≤ c) →
    oid_loop stack acc (cs ++ ds) = oid_loop (cs.reverse ++ stack) acc ds := by
  induction cs with
  | nil => intro stack acc ds h; simp
  | cons c cs ih =>
    intro stack acc ds h
    simp only [List.cons_append, oid_loop, List.append_eq]
    rw [if_pos (h c (by simp))]
    rw [ih (c :: stack) acc ds (fun x hx => h x (by simp [hx]))]
    simp

theorem accumExact_eq (st : List Nat) : ∀ (s i : Nat),
    accumExact s i st = s + 128 ^ (i + 1) * stackVal st := by
  induction st with
  | nil => intro s i; simp [accumExact, stackVal]
  | cons c st ih =>
    intro s i
    simp only [accumExact, stackVal]
    rw [ih]
    ring

theorem accumStack_eq (st : List Nat) : ∀ (s i : Nat), s < W64 →
    accumStack s i st = accumExact s i st % W64 := by
  induction st with
  | nil =>
    intro s i hs
    simp [accumStack, accumExact, Nat.mod_eq_of_lt hs]
  | cons c st ih =>
    intro s i hs
    simp only [accumStack, accumExact]
    rw [ih _ _ (Nat.mod_lt _ (by simp [W64]))]
    rw [accumExact_eq, accumExact_eq]
    have h1 : (c - 128) * (128 ^ (i + 1) % W64) ≡ (c - 128) * 128 ^ (i + 1) [MOD W64] :=
      Nat.ModEq.mul_left (c - 128) (Nat.mod_modEq _ _)
    have h2 : (c - 128) * (128 ^ (i + 1) % W64) % W64 ≡
        (c - 128) * 128 ^ (i + 1) [MOD W64] :=
      (Nat.mod_modEq _ _).trans h1
    have h3 : (s + (c - 128) * (128 ^ (i + 1) % W64) % W64) % W64 ≡
        s + (c - 128) * 128 ^ (i + 1) [MOD W64] :=
      (Nat.mod_modEq _ _).trans (h2.add_left s)
    exact h3.add_right (128 ^ (i + 1 + 1) * stackVal st)

theorem varint_foldl_init (l : List Nat) : ∀ a : Nat,
    l.foldl (fun x b => x * 128 + b % 128) a = a * 128 ^ l.length + varintVal l := by
  induction l with
  | nil => intro a; simp [varintVal]
  | cons b l ih =>
    intro a
    simp only [varintVal, List.foldl_cons, List.length_cons]
    rw [ih, ih (0 * 128 + b % 128)]
    ring

theorem varintVal_append_last (l : List Nat) (t : Nat) :
    varintVal (l ++ [t]) = 128 * varintVal l + t % 128 := by
  simp only [varintVal, List.foldl_append, List.foldl_cons, List.foldl_nil]
  ring

theorem stackVal_append_last (l : List Nat) : ∀ c : Nat,
    stackVal (l ++ [c]) = stackVal l + (c - 128) * 128 ^ l.length := by
  induction l with
  | nil => intro c; simp [stackVal]
  | cons x l ih =>
    intro c
    simp only [List.cons_append, stackVal, List.length_cons, List.append_eq]
    rw [ih]
    ring

theorem stackVal_reverse (cs : List Nat) (h : ∀ c ∈ cs, 128 ≤ c ∧ c < 256) :
    stackVal cs.reverse = varintVal cs := by
  induction cs with
  | nil => rfl
  | cons c cs ih =>
    simp only [List.reverse_cons]
    rw [stackVal_append_last, ih (fun x hx => h x (List.mem_cons_of_mem _ hx))]
    have hc := h c (List.mem_cons_self c cs)
    have hcm : c % 128 = c - 128 := by omega
    simp only [varintVal, List.foldl_cons, List.length_reverse, Nat.zero_mul,
      Nat.zero_add, hcm]
    rw [varint_foldl_init cs (c - 128)]
    simp only [varintVal]
    ring

theorem oid_group (cs : List Nat) (t : Nat) (acc : String) (ds : Bytes)
    (hcs : ∀ c ∈ cs, 128 ≤ c ∧ c < 256) (ht : t < 128)
    (hval : varintVal (cs ++ [t]) < W64) :
    oid_loop [] acc ((cs ++ [t]) ++ ds) =
      oid_loop [] (acc ++ "." ++ toString (varintVal (cs ++ [t]))) ds := by
  rw [List.append_assoc, oid_push cs [] acc _ (fun c hc => (hcs c hc).1)]
  simp only [List.append_nil, List.singleton_append, oid_loop]
  rw [if_neg (by omega)]
  have htm : t % 128 = t := Nat.mod_eq_of_lt ht
  have hvt : varintVal (cs ++ [t]) = 128 * varintVal cs + t := by
    rw [varintVal_append_last, htm]
  have hlt : t + 128 * varintVal cs < W64 := by
    rw [hvt] at hval
    omega
  have hacc : accumStack t 0 cs.reverse = varintVal (cs ++ [t]) := by
    rw [accumStack_eq cs.reverse t 0 (lt_of_lt_of_le ht (by norm_num [W64]))]
    rw [accumExact_eq]
    simp only [Nat.zero_add, pow_one, stackVal_reverse cs hcs]
    rw [Nat.mod_eq_of_lt hlt, hvt]
    omega
  rw [hacc]
  simp

theorem oid_loop_groups (groups : List (List Nat)) : ∀ acc : String,
    (∀ g ∈ groups, IsVarintGroup g ∧ varintVal g < W64) →
    oid_loop [] acc groups.flatten = dottedFrom acc (groups.map varintVal) := by
  induction groups with
  | nil => intro acc h; simp [oid_loop, dottedFrom]
  | cons g gs ih =>
    intro acc h
    obtain ⟨⟨cs, t, hg, hcs, ht⟩, hval⟩ := h g (by simp)
    subst hg
    simp only [List.flatten_cons]
    rw [oid_group cs t acc gs.flatten hcs ht hval]
    rw [ih _ (fun x hx => h x (by simp [hx]))]
    simp [dottedFrom]


theorem updateName_unrecognized (acc : Name) (id nm : String)
    (h : id ∉ recognizedOids) :
    updateName acc id nm = { acc with extra := some id } := by
  simp only [recognizedOids, List.mem_cons, List.mem_singleton, not_or] at h
  obtain ⟨h3, h6, h7, h8, h10, h11, -⟩ := h
  rw [updateName, if_neg h3, if_neg h6, if_neg h7, if_neg h8, if_neg h10,
    if_neg h11]

theorem altValues_fuel_succ (f : Nat) (inp : Bytes) :
    altValues_fuel (f + 1) inp =
      match read_tag_and_get_value inp with
      | .error _ => []
      | .ok (_, v, rest) => v :: altValues_fuel f rest := rfl

theorem altValues_unfold (input : Bytes) :
    altValues input =
      match read_tag_and_get_value input with
      | .error _ => []
      | .ok (_, v, rest) => v :: altValues rest := by
  simp only [altValues]
  rw [altValues_fuel_succ]
  cases hr : read_tag_and_get_value input with
  | error e => rfl
  | ok tvr =>
    obtain ⟨t, v, rest⟩ := tvr
    have hc := read_tag_rest_length hr
    show v :: altValues_fuel input.length rest =
      v :: altValues_fuel (rest.length + 1) rest
    rw [altValues_fuel_congr input.length (rest.length + 1) rest
      (by omega) (by omega)]

theorem parse_alt_name_fuel_succ (f : Nat) (acc : List String) (inp : Bytes) :
    parse_alt_name_fuel (f + 1) acc inp =
      match read_tag_and_get_value inp with
      | .error _ => .ok acc
      | .ok (_, v, rest) =>
        match utf8Decode v with
        | some str => parse_alt_name_fuel f (acc ++ [str]) rest
        | none => .error .BadDER := rfl

theorem alt_fuel_err : ∀ (fuel : Nat) (acc : List String) (input : Bytes),
    input.length < fuel →
    (∃ v ∈ altValues input, utf8Decode v = none) →
    parse_alt_name_fuel fuel acc input = .error .BadDER := by
  intro fuel
  induction fuel with
  | zero => intro acc input h1 h2; omega
  | succ g ih =>
    intro acc input hlen hex
    cases hr : read_tag_and_get_value input with
    | error e =>
      exfalso
      have hav : altValues input = [] := by rw [altValues_unfold, hr]
      rw [hav] at hex
      simp at hex
    | ok tvr =>
      obtain ⟨t, v, rest⟩ := tvr
      have hc := read_tag_rest_length hr
      have hav : altValues input = v :: altValues rest := by
        rw [altValues_unfold, hr]
      have hstep : parse_alt_name_fuel (g + 1) acc input =
          match utf8Decode v with
          | some str => parse_alt_name_fuel g (acc ++ [str]) rest
          | none => .error .BadDER := by
        rw [parse_alt_name_fuel_succ, hr]
      rw [hav] at hex
      rw [hstep]
      cases hu : utf8Decode v with
      | none => rfl
      | some str =>
        simp only [List.mem_cons] at hex
        obtain ⟨w, hw, hwn⟩ := hex
        cases hw with
        | inl hwv => rw [hwv, hu] at hwn; exact absurd hwn (by simp)
        | inr hwr =>
          exact ih (acc ++ [str]) rest (by omega) ⟨w, hwr, hwn⟩

theorem time_choice_utc (input : Bytes) (h : peek 23 input = true) :
    time_choice input = nested input 23 .BadDER (time_inner true) := by
  simp [time_choice, h]

theorem time_choice_not_utc (input : Bytes) (h : peek 23 input = false) :
    time_choice input = nested input 24 .BadDER (time_inner false) := by
  simp [time_choice, h]

/-- Claim C1: for every value framed as UTCTime (tag 0x17, 13 payload bytes)
or GeneralizedTime (tag 0x18, 15 payload bytes), time_choice reads the digit
groups left to right — year (2 digits with century inference for UTCTime:
at least 50 maps to 19xx, otherwise 20xx; 4 digits for GeneralizedTime),
month 1..12, day 1..days_in_month, hour 0..23, minute 0..59, second
0..59 — then requires the literal byte Z; any non-digit byte, out-of-range
group, or other zone byte is BadDERTime, and on success the result is the
time the calendar collaborator builds from the validated six-tuple: the
decode equals the claim-side grammar timeSpec exactly. -/
theorem claim_C1_time_choice_spec (isUtc : Bool) (payload rest : Bytes)
    (hlen : payload.length = if isUtc then 13 else 15) :
    time_choice ((if isUtc then 23 else 24) :: payload.length :: (payload ++ rest)) =
      match timeSpec isUtc payload with
      | .ok t => .ok (t, rest)
      | .error e => .error e := by
  cases isUtc with
  | true =>
    replace hlen : payload.length = 13 := by simpa using hlen
    have hstep0 : payload.length = 12 + 1 := by omega
    obtain ⟨y1, payload, rfl⟩ := List.exists_of_length_succ payload hstep0
    simp only [List.length_cons] at hlen
    clear hstep0
    have hstep1 : payload.length = 11 + 1 := by omega
    obtain ⟨y2, payload, rfl⟩ := List.exists_of_length_succ payload hstep1
    simp only [List.length_cons] at hlen
    clear hstep1
    have hstep2 : payload.length = 10 + 1 := by omega
    obtain ⟨mo1, payload, rfl⟩ := List.exists_of_length_succ payload hstep2
    simp only [List.length_cons] at hlen
    clear hstep2
    have hstep3 : payload.length = 9 + 1 := by omega
    obtain ⟨mo2, payload, rfl⟩ := List.exists_of_length_succ payload hstep3
    simp only [List.length_cons] at hlen
    clear hstep3
    have hstep4 : payload.length = 8 + 1 := by omega
    obtain ⟨d1, payload, rfl⟩ := List.exists_of_length_succ payload hstep4
    simp only [List.length_cons] at hlen
    clear hstep4
    have hstep5 : payload.length = 7 + 1 := by omega
    obtain ⟨d2, payload, rfl⟩ := List.exists_of_length_succ payload hstep5
    simp only [List.length_cons] at hlen
    clear hstep5
    have hstep6 : payload.length = 6 + 1 := by omega
    obtain ⟨h1, payload, rfl⟩ := List.exists_of_length_succ payload hstep6
    simp only [List.length_cons] at hlen
    clear hstep6
    have hstep7 : payload.length = 5 + 1 := by omega
    obtain ⟨h2, payload, rfl⟩ := List.exists_of_length_succ payload hstep7
    simp only [List.length_cons] at hlen
    clear hstep7
    have hstep8 : payload.length = 4 + 1 := by omega
    obtain ⟨mi1, payload, rfl⟩ := List.exists_of_length_succ payload hstep8
    simp only [List.length_cons] at hlen
    clear hstep8
    have hstep9 : payload.length = 3 + 1 := by omega
    obtain ⟨mi2, payload, rfl⟩ := List.exists_of_length_succ payload hstep9
    simp only [List.length_cons] at hlen
    clear hstep9
    have hstep10 : payload.length = 2 + 1 := by omega
    obtain ⟨s1, payload, rfl⟩ := List.exists_of_length_succ payload hstep10
    simp only [List.length_cons] at hlen
    clear hstep10
    have hstep11 : payload.length = 1 + 1 := by omega
    obtain ⟨s2, payload, rfl⟩ := List.exists_of_length_succ payload hstep11
    simp only [List.length_cons] at hlen
    clear hstep11
    have hstep12 : payload.length = 0 + 1 := by omega
    obtain ⟨z, payload, rfl⟩ := List.exists_of_length_succ payload hstep12
    simp only [List.length_cons] at hlen
    clear hstep12
    have hnil : payload = [] := List.eq_nil_of_length_eq_zero (by omega)
    subst hnil
    have hn := nested_short 23 [y1, y2, mo1, mo2, d1, d2, h1, h2, mi1, mi2, s1, s2, z]
      rest Error.BadDER (time_inner true) (by decide) (by simp)
    rw [show (if (true : Bool) then (23 : Nat) else 24) = 23 from rfl]
    rw [time_choice_utc
      (23 :: [y1, y2, mo1, mo2, d1, d2, h1, h2, mi1, mi2, s1, s2, z].length :: ([y1, y2, mo1, mo2, d1, d2, h1, h2, mi1, mi2, s1, s2, z] ++ rest)) rfl]
    rw [hn, read_all_time_utc]
    cases timeSpec true [y1, y2, mo1, mo2, d1, d2, h1, h2, mi1, mi2, s1, s2, z] with
    | ok t => rfl
    | error e => rfl
  | false =>
    replace hlen : payload.length = 15 := by simpa using hlen
    have hstep0 : payload.length = 14 + 1 := by omega
    obtain ⟨c1h, payload, rfl⟩ := List.exists_of_length_succ payload hstep0
    simp only [List.length_cons] at hlen
    clear hstep0
    have hstep1 : payload.length = 13 + 1 := by omega
    obtain ⟨c2h, payload, rfl⟩ := List.exists_of_length_succ payload hstep1
    simp only [List.length_cons] at hlen
    clear hstep1
    have hstep2 : payload.length = 12 + 1 := by omega
    obtain ⟨y1, payload, rfl⟩ := List.exists_of_length_succ payload hstep2
    simp only [List.length_cons] at hlen
    clear hstep2
    have hstep3 : payload.length = 11 + 1 := by omega
    obtain ⟨y2, payload, rfl⟩ := List.exists_of_length_succ payload hstep3
    simp only [List.length_cons] at hlen
    clear hstep3
    have hstep4 : payload.length = 10 + 1 := by omega
    obtain ⟨mo1, payload, rfl⟩ := List.exists_of_length_succ payload hstep4
    simp only [List.length_cons] at hlen
    clear hstep4
    have hstep5 : payload.length = 9 + 1 := by omega
    obtain ⟨mo2, payload, rfl⟩ := List.exists_of_length_succ payload hstep5
    simp only [List.length_cons] at hlen
    clear hstep5
    have hstep6 : payload.length = 8 + 1 := by omega
    obtain ⟨d1, payload, rfl⟩ := List.exists_of_length_succ payload hstep6
    simp only [List.length_cons] at hlen
    clear hstep6
    have hstep7 : payload.length = 7 + 1 := by omega
    obtain ⟨d2, payload, rfl⟩ := List.exists_of_length_succ payload hstep7
    simp only [List.length_cons] at hlen
    clear hstep7
    have hstep8 : payload.length = 6 + 1 := by omega
    obtain ⟨h1, payload, rfl⟩ := List.exists_of_length_succ payload hstep8
    simp only [List.length_cons] at hlen
    clear hstep8
    have hstep9 : payload.length = 5 + 1 := by omega
    obtain ⟨h2, payload, rfl⟩ := List.exists_of_length_succ payload hstep9
    simp only [List.length_cons] at hlen
    clear hstep9
    have hstep10 : payload.length = 4 + 1 := by omega
    obtain ⟨mi1, payload, rfl⟩ := List.exists_of_length_succ payload hstep10
    simp only [List.length_cons] at hlen
    clear hstep10
    have hstep11 : payload.length = 3 + 1 := by omega
    obtain ⟨mi2, payload, rfl⟩ := List.exists_of_length_succ payload hstep11
    simp only [List.length_cons] at hlen
    clear hstep11
    have hstep12 : payload.length = 2 + 1 := by omega
    obtain ⟨s1, payload, rfl⟩ := List.exists_of_length_succ payload hstep12
    simp only [List.length_cons] at hlen
    clear hstep12
    have hstep13 : payload.length = 1 + 1 := by omega
    obtain ⟨s2, payload, rfl⟩ := List.exists_of_length_succ payload hstep13
    simp only [List.length_cons] at hlen
    clear hstep13
    have hstep14 : payload.length = 0 + 1 := by omega
    obtain ⟨z, payload, rfl⟩ := List.exists_of_length_succ payload hstep14
    simp only [List.length_cons] at hlen
    clear hstep14
    have hnil : payload = [] := List.eq_nil_of_length_eq_zero (by omega)
    subst hnil
    have hn := nested_short 24
      [c1h, c2h, y1, y2, mo1, mo2, d1, d2, h1, h2, mi1, mi2, s1, s2, z]
      rest Error.BadDER (time_inner false) (by decide) (by simp)
    rw [show (if (false : Bool) then (23 : Nat) else 24) = 24 from rfl]
    rw [time_choice_not_utc
      (24 :: [c1h, c2h, y1, y2, mo1, mo2, d1, d2, h1, h2, mi1, mi2, s1, s2, z].length :: ([c1h, c2h, y1, y2, mo1, mo2, d1, d2, h1, h2, mi1, mi2, s1, s2, z] ++ rest)) rfl]
    rw [hn, read_all_time_gen]
    cases timeSpec false [c1h, c2h, y1, y2, mo1, mo2, d1, d2, h1, h2, mi1, mi2, s1, s2, z] with
    | ok t => rfl
    | error e => rfl

/-- Claim C1 witness: the UTCTime value 991231235959Z decodes to the
calendar time 1999-12-31 23:59:59. -/
theorem claim_C1_witness :
    time_choice [23, 13, 57, 57, 49, 50, 51, 49, 50, 51, 53, 57, 53, 57, 90] =
      .ok (⟨1999, 12, 31, 23, 59, 59⟩, []) := by
  have h := claim_C1_time_choice_spec true
    [57, 57, 49, 50, 51, 49, 50, 51, 53, 57, 53, 57, 90] [] (by decide)
  exact h.trans rfl

/-- Claim C2 (code-bug evidence): parse_oid applied to the OID TLV
06 02 55 80, whose payload ends in the middle of a base-128 varint (the last
payload byte 0x80 has its high bit set), returns Ok "2.5" — the unterminated
continuation byte is silently discarded instead of producing the BadDER the
claim requires. -/
theorem claim_C2_trailing_continuation_accepted :
    parse_oid [6, 2, 85, 128] = .ok ("2.5", []) := rfl

/-- Claim C3 (code-bug evidence): on the OID TLV whose payload is one zero
byte, ten continuation bytes 0x80 and a terminator, the overflow-checked
(debug-build) model of parse_oid panics — 128^10 exceeds the u64 range — so
the claim that the accumulation never panics for any payload fails; under
release-build wrapping semantics the same input silently yields the wrapped
arc 0 (the string "0.0.0") rather than panicking. -/
theorem claim_C3_pow_overflow_panics :
    parse_oidChecked
        [6, 12, 0, 128, 128, 128, 128, 128, 128, 128, 128, 128, 128, 0] =
      none ∧
    parse_oid [6, 12, 0, 128, 128, 128, 128, 128, 128, 128, 128, 128, 128, 0] =
      .ok ("0.0.0", []) :=
  ⟨rfl, rfl⟩

theorem optional_boolean_framed (b : Nat) (rest : Bytes) :
    optional_boolean (1 :: 1 :: b :: rest) =
      if b = 255 then .ok (true, rest)
      else if b = 0 then .ok (false, rest)
      else .error .BadDER := by
  have hn := nested_short (R := Bool) 1 [b] rest Error.BadDER
    (fun v =>
      match v with
      | [] => .error .BadDER
      | c :: r =>
        if c = 255 then .ok (true, r)
        else if c = 0 then .ok (false, r)
        else .error .BadDER) (by decide) (by simp)
  simp only [List.length_cons, List.length_nil, Nat.zero_add,
    List.singleton_append] at hn
  rw [show optional_boolean (1 :: 1 :: b :: rest) =
      nested (1 :: 1 :: b :: rest) 1 .BadDER (fun v =>
        match v with
        | [] => .error .BadDER
        | c :: r =>
          if c = 255 then .ok (true, r)
          else if c = 0 then .ok (false, r)
          else .error .BadDER) from rfl]
  rw [hn]
  by_cases h255 : b = 255
  · subst h255
    rfl
  · by_cases h0 : b = 0
    · subst h0
      rfl
    · rw [if_neg h255, if_neg h0]
      have hra : read_all [b] Error.BadDER (fun v =>
          match v with
          | [] => .error .BadDER
          | c :: r =>
            if c = 255 then .ok (true, r)
            else if c = 0 then .ok (false, r)
            else .error .BadDER) = .error .BadDER := by
        simp only [read_all, if_neg h255, if_neg h0]
      rw [hra]

/-- Claim C4: optional_boolean returns false without consuming anything when
the next tag byte is not the Boolean tag; on a framed Boolean with payload
byte 0xFF it returns true, with 0x00 it returns false, and with any other
payload byte it returns BadDER. -/
theorem claim_C4_optional_boolean :
    (∀ input : Bytes, peek 1 input = false →
      optional_boolean input = .ok (false, input)) ∧
    (∀ rest : Bytes, optional_boolean (1 :: 1 :: 255 :: rest) = .ok (true, rest)) ∧
    (∀ rest : Bytes, optional_boolean (1 :: 1 :: 0 :: rest) = .ok (false, rest)) ∧
    (∀ (b : Nat) (rest : Bytes), b < 256 → b ≠ 255 → b ≠ 0 →
      optional_boolean (1 :: 1 :: b :: rest) = .error .BadDER) := by
  refine ⟨?_, ?_, ?_, ?_⟩
  · intro input h
    simp [optional_boolean, h]
  · intro rest
    rw [optional_boolean_framed]
    rfl
  · intro rest
    rw [optional_boolean_framed]
    rfl
  · intro b rest hb h255 h0
    rw [optional_boolean_framed, if_neg h255, if_neg h0]

/-- Claim C4 witness: the nonconformant Boolean payload 0x01 is rejected. -/
theorem claim_C4_witness : optional_boolean [1, 1, 1] = .error .BadDER :=
  claim_C4_optional_boolean.2.2.2 1 [] (by decide) (by decide) (by decide)

/-- Claim C5: every recognized attribute-type OID sets exactly its field and
leaves all other fields unchanged; every other OID overwrites the single
extra slot with the OID string (discarding the attribute value); two
unrecognized RDNs in a row leave only the second OID in extra; and on a
concrete three-RDN input (common name, then OIDs 2.5.4.9 and 2.5.4.12)
parse_name fills only common_name and leaves the last unrecognized OID in
extra. -/
theorem claim_C5_rdn_dispatch :
    (∀ (acc : Name) (nm : String),
      updateName acc "2.5.4.3" nm = { acc with common_name := some nm } ∧
      updateName acc "2.5.4.6" nm = { acc with country_name := some nm } ∧
      updateName acc "2.5.4.7" nm = { acc with locality_name := some nm } ∧
      updateName acc "2.5.4.8" nm = { acc with state_or_province_name := some nm } ∧
      updateName acc "2.5.4.10" nm = { acc with organization_name := some nm } ∧
      updateName acc "2.5.4.11" nm = { acc with organizational_unit_name := some nm }) ∧
    (∀ (acc : Name) (id nm : String), id ∉ recognizedOids →
      updateName acc id nm = { acc with extra := some id }) ∧
    (∀ (acc : Name) (id1 nm1 id2 nm2 : String),
      id1 ∉ recognizedOids → id2 ∉ recognizedOids →
      updateName (updateName acc id1 nm1) id2 nm2 = { acc with extra := some id2 }) ∧
    parse_name nameRdnExample =
      .ok { emptyName with common_name := some "example.com",
                           extra := some "2.5.4.12" } := by
  refine ⟨?_, ?_, ?_, ?_⟩
  · intro acc nm
    refine ⟨rfl, ?_, ?_, ?_, ?_, ?_⟩
    · rw [updateName, if_neg (by decide), if_pos rfl]
    · rw [updateName, if_neg (by decide), if_neg (by decide), if_pos rfl]
    · rw [updateName, if_neg (by decide), if_neg (by decide), if_neg (by decide),
        if_pos rfl]
    · rw [updateName, if_neg (by decide), if_neg (by decide), if_neg (by decide),
        if_neg (by decide), if_pos rfl]
    · rw [updateName, if_neg (by decide), if_neg (by decide), if_neg (by decide),
        if_neg (by decide), if_neg (by decide), if_pos rfl]
  · exact updateName_unrecognized
  · intro acc id1 nm1 id2 nm2 h1 h2
    rw [updateName_unrecognized _ _ _ h1, updateName_unrecognized _ _ _ h2]
  · rfl

/-- Claim C5 witness: two unrecognized attribute types applied in a row
leave only the second OID string in the extra slot. -/
theorem claim_C5_witness :
    updateName (updateName emptyName "2.5.4.9" "a") "2.5.4.12" "b" =
      { emptyName with extra := some "2.5.4.12" } :=
  claim_C5_rdn_dispatch.2.2.1 emptyName "2.5.4.9" "a" "2.5.4.12" "b"
    (by decide) (by decide)

/-- Claim C6: parse_name never returns an error — it always returns Ok of
the accumulated Name — and whenever parse_one_name fails on the next
component (end of input or a non-Set tag), the RDN loop stops and returns
the accumulator unchanged. -/
theorem claim_C6_parse_name_total :
    (∀ input : Bytes, ∃ nm, parse_name input = .ok nm) ∧
    (∀ (input : Bytes) (e : Error), parse_one_name input = .error e →
      parse_name input = .ok emptyName) ∧
    (∀ (fuel : Nat) (acc : Name) (input : Bytes) (e : Error),
      parse_one_name input = .error e →
      parse_name_fuel (fuel + 1) acc input = acc) := by
  refine ⟨fun input => ⟨_, rfl⟩, ?_, ?_⟩
  · intro input e h
    simp only [parse_name, parse_name_fuel, h]
  · intro fuel acc input e h
    simp only [parse_name_fuel, h]

/-- Claim C6 witness: on an input starting with a Sequence tag (not a Set)
parse_name returns the all-absent Name rather than an error. -/
theorem claim_C6_witness : parse_name [48] = .ok emptyName :=
  claim_C6_parse_name_total.2.1 [48] .BadDER rfl

/-- Claim C7: parse_alt_name on empty input returns Ok with the empty list,
and whenever any element's value bytes in the input fail UTF-8 validation
the whole call returns BadDER, discarding every name already collected. -/
theorem claim_C7_alt_name :
    parse_alt_name [] = .ok [] ∧
    (∀ input : Bytes, (∃ v ∈ altValues input, utf8Decode v = none) →
      parse_alt_name input = .error .BadDER) := by
  constructor
  · rfl
  · intro input hex
    exact alt_fuel_err (input.length + 1) [] input (by omega) hex

/-- Claim C7 witness: a two-element list whose second value byte 0xFF is not
UTF-8 makes the whole decode fail, discarding the first name. -/
theorem claim_C7_witness :
    parse_alt_name [12, 1, 97, 12, 1, 255] = .error .BadDER :=
  claim_C7_alt_name.2 [12, 1, 97, 12, 1, 255] (by decide)

/-- Claim C8: parse_oid maps the two canonical test vectors to their dotted
strings, and in general a framed payload consisting of a first byte and a
sequence of base-128 varints decodes to the arcs first/40, first%40 and one
arc per varint. -/
theorem claim_C8_parse_oid :
    parse_oid [6, 9, 42, 134, 72, 134, 247, 13, 1, 1, 11] =
      .ok ("1.2.840.113549.1.1.11", []) ∧
    parse_oid [6, 3, 85, 4, 3] = .ok ("2.5.4.3", []) ∧
    ∀ (first : Nat) (groups : List (List Nat)) (rest : Bytes),
      groups.flatten.length < 127 →
      (∀ g ∈ groups, IsVarintGroup g ∧ varintVal g < W64) →
      parse_oid (6 :: (first :: groups.flatten).length ::
          ((first :: groups.flatten) ++ rest)) =
        .ok (dottedOid first (groups.map varintVal), rest) := by
  refine ⟨rfl, rfl, ?_⟩
  intro first groups rest hlen hg
  have hE := expect_tag_short 6 (first :: groups.flatten) rest (by decide)
    (by simp only [List.length_cons]; omega)
  simp only [parse_oid, hE, read_all]
  rw [oid_loop_groups groups _ hg]
  rfl

/-- Claim C8 witness: the payload 0x2A 0x86 0x48 — first byte 42 and the
single varint 0x86 0x48 — decodes to the arcs 1.2.840. -/
theorem claim_C8_witness :
    parse_oid [6, 3, 42, 134, 72] = .ok (dottedOid 42 [840], []) :=
  claim_C8_parse_oid.2.2 42 [[134, 72]] [] (by decide)
    (by
      intro g hg
      simp only [List.mem_singleton] at hg
      subst hg
      exact ⟨⟨[134], 72, rfl, by decide, by decide⟩, by decide⟩)

/-- Claim C9 counterexample: a value tagged as a Sequence (0x30), which is
neither UTCTime nor GeneralizedTime, makes time_choice fail with the generic
BadDER — not the time-specific BadDERTime the claim asserts. -/
theorem claim_C9_counterexample :
    time_choice [48, 0] = .error .BadDER ∧ Error.BadDER ≠ Error.BadDERTime :=
  ⟨rfl, by decide⟩

/-- Claim C9 as amended: when the next byte is neither the UTCTime tag 0x17
nor the GeneralizedTime tag 0x18 (including at end of input), time_choice
fails with the generic error kind BadDER, the error value passed to the
nested combinator — not BadDERTime. -/
theorem claim_C9_wrong_tag_generic_error (input : Bytes)
    (h23 : input.head? ≠ some 23) (h24 : input.head? ≠ some 24) :
    time_choice input = .error .BadDER := by
  have hp : peek 23 input = false := by
    cases input with
    | nil => rfl
    | cons x xs =>
      have hx : x ≠ 23 := by
        intro hx
        exact h23 (by simp [hx])
      simp [peek, hx]
  rw [time_choice_not_utc input hp]
  cases hE : expect_tag_and_get_value 24 input with
  | error e => simp [nested, hE]
  | ok vr =>
    exfalso
    obtain ⟨v, rest⟩ := vr
    exact h24 (expect_tag_head hE)

/-- Claim C9 witness: an Integer-tagged value yields BadDER. -/
theorem claim_C9_witness : time_choice [2, 1, 0] = .error .BadDER :=
  claim_C9_wrong_tag_generic_error [2, 1, 0] (by decide) (by decide)

/-- Claim C10: inside parse_one_name, bytes of the Set's value that follow
the attribute Sequence are silently ignored — a Set holding a Sequence plus
trailing junk parses exactly like the same Set without the junk. -/
theorem claim_C10_set_trailing_bytes_ignored (seqVal junk rest : Bytes)
    (h1 : seqVal.length < 128)
    (h2 : ((48 :: seqVal.length :: seqVal) ++ junk).length < 128) :
    parse_one_name (49 :: ((48 :: seqVal.length :: seqVal) ++ junk).length ::
        (((48 :: seqVal.length :: seqVal) ++ junk) ++ rest)) =
      parse_one_name (49 :: (48 :: seqVal.length :: seqVal).length ::
        ((48 :: seqVal.length :: seqVal) ++ rest)) := by
  have hL := read_tag_short 49 ((48 :: seqVal.length :: seqVal) ++ junk) rest
    (by decide) h2
  have hR := read_tag_short 49 (48 :: seqVal.length :: seqVal) rest
    (by decide) (by simp only [List.length_append, List.length_cons] at h2 ⊢; omega)
  have hEL := expect_tag_short 48 seqVal junk (by decide) h1
  have hER := expect_tag_short 48 seqVal [] (by decide) h1
  simp only [List.append_nil] at hER
  simp only [parse_one_name, peek, beq_self_eq_true, if_true, hL, hR]
  simp only [List.cons_append] at hEL ⊢
  simp only [hEL, hER]

/-- Claim C10 witness: the common-name Set followed by one junk byte inside
the Set's value parses exactly like the clean common-name Set. -/
theorem claim_C10_witness :
    parse_one_name
        (49 :: ((48 :: (18 : Nat) :: [6, 3, 85, 4, 3, 12, 11, 101, 120, 97,
          109, 112, 108, 101, 46, 99, 111, 109]) ++ [171]).length ::
          (((48 :: (18 : Nat) :: [6, 3, 85, 4, 3, 12, 11, 101, 120, 97, 109,
            112, 108, 101, 46, 99, 111, 109]) ++ [171]) ++ [])) =
      parse_one_name
        (49 :: (48 :: (18 : Nat) :: [6, 3, 85, 4, 3, 12, 11, 101, 120, 97,
          109, 112, 108, 101, 46, 99, 111, 109]).length ::
          ((48 :: (18 : Nat) :: [6, 3, 85, 4, 3, 12, 11, 101, 120, 97, 109,
            112, 108, 101, 46, 99, 111, 109]) ++ [])) := by
  have h := claim_C10_set_trailing_bytes_ignored
    [6, 3, 85, 4, 3, 12, 11, 101, 120, 97, 109, 112, 108, 101, 46, 99, 111, 109]
    [171] [] (by decide) (by decide)
  exact h

end Webpki
